import Mathlib

/-!
# Verification of the pcap-sip-vision capture-analysis core

Shallow embedding of `src/supabase/functions/_shared/pcap-parser.ts` and the
RTP-correlation / interval-metrics loops of
`src/supabase/functions/analyze-pcap/index.ts`, together with theorems that
settle the frozen claims about that code.

Modelling conventions:
* `Uint8Array` values are `List Nat` (each element a byte, `< 256` where a
  claim needs it).
* JavaScript numbers are modelled exactly: integer-valued quantities as
  `Nat`/`Int`, fractional arithmetic (jitter, loss percentage, the E-model
  reduction) as `ℚ`.  JavaScript's `%` operator is a remainder whose sign
  follows the dividend, i.e. `Int.tmod`; JavaScript's `|0`-style 32-bit
  results of `<<`/`|` are modelled with an explicit two's-complement
  reduction.
* A thrown exception is modelled as the `none`/`.error` case of an
  `Option`/`Except` result.
-/

/-- Result of `parseRTPPacket` (interface `RTPPacket` in pcap-parser.ts).
`timestamp` and `ssrc` are produced by JavaScript 32-bit `<<`/`|`
arithmetic and are therefore signed 32-bit values (`Int`); `captureTime`
is kept as `Int` (microseconds). -/
structure RTPPacket where
  version : Nat
  padding : Bool
  extension : Bool
  csrcCount : Nat
  marker : Bool
  payloadType : Nat
  sequenceNumber : Nat
  timestamp : Int
  ssrc : Int
  payload : List Nat
  captureTime : Int
  sourceIp : String
  sourcePort : Nat
  destIp : String
  destPort : Nat
  deriving DecidableEq, Repr, Inhabited

/-- JavaScript `ToInt32`: reduce a nonnegative integer to a signed 32-bit
value, as produced by the `<< 24 | ...` chains in `parseRTPPacket`. -/
def toInt32 (n : Nat) : Int :=
  (((n : Int) + 2147483648) % 4294967296) - 2147483648

/-- `parseRTPPacket(udpPayload, captureTime, sourceIp, sourcePort, destIp,
destPort)` from pcap-parser.ts.  Returns `null` (here `none`) when the
payload is shorter than 12 bytes or the version bits are not 2; otherwise
builds the packet record.  `udpPayload.slice(headerLength)` is
`List.drop`: a start index past the end yields the empty list, exactly as
`slice` does. -/
def parseRTPPacket (udpPayload : List Nat) (captureTime : Int)
    (sourceIp : String) (sourcePort : Nat) (destIp : String) (destPort : Nat) :
    Option RTPPacket :=
  if udpPayload.length < 12 then none
  else
    let b0 := udpPayload.getD 0 0
    let version := (b0 >>> 6) &&& 0x03
    if version ≠ 2 then none
    else
      let b1 := udpPayload.getD 1 0
      let csrcCount := b0 &&& 0x0F
      let headerLength := 12 + csrcCount * 4
      some
        { version := version
          padding := (b0 &&& 0x20) ≠ 0
          extension := (b0 &&& 0x10) ≠ 0
          csrcCount := csrcCount
          marker := (b1 &&& 0x80) ≠ 0
          payloadType := b1 &&& 0x7F
          sequenceNumber := ((udpPayload.getD 2 0) <<< 8) ||| udpPayload.getD 3 0
          timestamp := toInt32 ((udpPayload.getD 4 0) * 16777216 +
            (udpPayload.getD 5 0) * 65536 + (udpPayload.getD 6 0) * 256 +
            udpPayload.getD 7 0)
          ssrc := toInt32 ((udpPayload.getD 8 0) * 16777216 +
            (udpPayload.getD 9 0) * 65536 + (udpPayload.getD 10 0) * 256 +
            udpPayload.getD 11 0)
          payload := udpPayload.drop headerLength
          captureTime := captureTime
          sourceIp := sourceIp
          sourcePort := sourcePort
          destIp := destIp
          destPort := destPort }

/-- `mulawToPcm(mulawByte)` from pcap-parser.ts.  The function complements
the byte (`~mulawByte`; on a byte the low 8 bits of the complement are
`255 - b`), splits it into sign / exponent / mantissa, and expands with
BIAS `0x84`. -/
def mulawToPcm (mulawByte : Nat) : Int :=
  let c := 255 - mulawByte % 256
  let sign := c &&& 0x80
  let exponent := (c &&& 0x70) >>> 4
  let mantissa := c &&& 0x0F
  let sample : Int := (((mantissa <<< 3) + 0x84) <<< exponent : Nat) - 0x84
  if sign ≠ 0 then -sample else sample

/-! ## Array.prototype.sort, as executed by V8 (Deno's engine)

`calculateMetrics` sorts a copy of the packet list with the comparator
`(a, b) => ((a.sequenceNumber - b.sequenceNumber + 32768) % 65536 - 32768)`.
Because JavaScript's `%` is a sign-following remainder, this comparator is
not a consistent total order once sequence numbers straddle the 16-bit
wrap (e.g. it reports both `cmp 0 65535 < 0` and `cmp 65535 0 < 0`), so
the ECMAScript specification leaves the sort result implementation-defined
and the engine's concrete algorithm is semantically relevant.  V8
implements TimSort; for arrays of fewer than 64 elements (`minRunLength n
= n` for `n < 64`) it reduces exactly to: detect the initial ascending or
strictly-descending run (reversing a descending one), then insert each
remaining element with a binary search over the sorted prefix.  That small
regime is what is modelled here; every list this development sorts is far
shorter than 64. -/

/-- Extend a strictly-descending run: keep taking elements while
`cmp x prev < 0`, returning the run and the untouched remainder. -/
def descRun (cmp : α → α → Int) : α → List α → List α × List α
  | _, [] => ([], [])
  | prev, x :: xs =>
    if cmp x prev < 0 then
      let p := descRun cmp x xs
      (x :: p.1, p.2)
    else ([], x :: xs)

/-- Extend an ascending (non-descending) run: keep taking elements while
`0 ≤ cmp x prev`. -/
def ascRun (cmp : α → α → Int) : α → List α → List α × List α
  | _, [] => ([], [])
  | prev, x :: xs =>
    if 0 ≤ cmp x prev then
      let p := ascRun cmp x xs
      (x :: p.1, p.2)
    else ([], x :: xs)

/-- V8's `CountAndMakeRun`: the initial run of the array, made ascending
(a strictly-descending initial run is reversed), plus the rest. -/
def initialRun (cmp : α → α → Int) : List α → List α × List α
  | [] => ([], [])
  | [a] => ([a], [])
  | a :: b :: rest =>
    if cmp b a < 0 then
      let p := descRun cmp b rest
      ((a :: b :: p.1).reverse, p.2)
    else
      let p := ascRun cmp b rest
      (a :: b :: p.1, p.2)

/-- The binary search of V8's `BinaryInsertionSort`: find the insertion
position of `pivot` in `sorted` with the loop
`while left < right: mid = left + (right-left)/2;
 if cmp pivot sorted[mid] < 0 then right = mid else left = mid + 1`.
`fuel` bounds the iteration count (`sorted.length` always suffices since
`right - left` shrinks every step). -/
def binPosAux (cmp : α → α → Int) (pivot : α) (sorted : List α) :
    Nat → Nat → Nat → Nat
  | 0, left, _ => left
  | f + 1, left, right =>
    if left < right then
      let mid := left + (right - left) / 2
      if cmp pivot (sorted.getD mid pivot) < 0 then
        binPosAux cmp pivot sorted f left mid
      else
        binPosAux cmp pivot sorted f (mid + 1) right
    else left

/-- Insertion position of `pivot` in `sorted` per V8's binary search. -/
def binPos (cmp : α → α → Int) (pivot : α) (sorted : List α) : Nat :=
  binPosAux cmp pivot sorted (sorted.length + 1) 0 sorted.length

/-- V8's `BinaryInsertionSort` over the elements after the initial run. -/
def binInsertAll (cmp : α → α → Int) (sorted rest : List α) : List α :=
  rest.foldl (fun acc x => acc.insertIdx (binPos cmp x acc) x) sorted

/-- `Array.prototype.sort(cmp)` under V8 for arrays of fewer than 64
elements: initial-run detection followed by binary insertion sort. -/
def v8SortSmall (cmp : α → α → Int) (l : List α) : List α :=
  let p := initialRun cmp l
  binInsertAll cmp p.1 p.2

/-- The sequence-number comparator of `calculateMetrics`:
`(diff + 32768) % 65536 - 32768` with JavaScript's sign-following
remainder (`Int.tmod`). -/
def jsCompareSeq (a b : RTPPacket) : Int :=
  ((a.sequenceNumber : Int) - (b.sequenceNumber : Int) + 32768).tmod 65536 - 32768

/-- `const sortedPackets = [...rtpPackets].sort(...)` of `calculateMetrics`. -/
def seqSorted (l : List RTPPacket) : List RTPPacket :=
  v8SortSmall jsCompareSeq l

/-! ## calculateMetrics -/

/-- One step of the loss loop: `expectedSeq = (prev + 1) & 0xFFFF`; when
the actual sequence number differs, the circular gap
`(actual - expected + 65536) % 65536` is added to the loss counter. -/
def lossGap (prev actual : Nat) : Nat :=
  let expected := (prev + 1) &&& 0xFFFF
  if actual = expected then 0 else (actual + 65536 - expected) % 65536

/-- The loss loop of `calculateMetrics` over the sequence-sorted copy. -/
def lossWalk : List RTPPacket → Nat
  | a :: b :: rest => lossGap a.sequenceNumber b.sequenceNumber + lossWalk (b :: rest)
  | _ => 0

/-- `transit = packet.captureTime - packet.timestamp`. -/
def transit (p : RTPPacket) : Int := p.captureTime - p.timestamp

/-- The jitter loop of `calculateMetrics`: carries `lastTransit`
(initially 0) and, whenever the carried value is nonzero, pushes
`Math.abs(transit - lastTransit) / 1000`. -/
def jitterWalk : Int → List RTPPacket → List ℚ
  | _, [] => []
  | lastTransit, p :: ps =>
    (if lastTransit ≠ 0 then [((|transit p - lastTransit| : Int) : ℚ) / 1000] else []) ++
      jitterWalk (transit p) ps

/-- `jitterValues` as accumulated by `calculateMetrics` (initial
`lastTransit = 0`). -/
def jitterValuesOf (sorted : List RTPPacket) : List ℚ :=
  jitterWalk 0 sorted

/-- `jitterValues.length > 0 ? jitterValues.reduce((a,b)=>a+b,0) / jitterValues.length : 0`. -/
def avgOfList (l : List ℚ) : ℚ :=
  if l.length = 0 then 0 else l.foldl (· + ·) 0 / l.length

/-- `jitterValues.length > 0 ? Math.max(...jitterValues) : 0`. -/
def jsMaxList : List ℚ → ℚ
  | [] => 0
  | x :: xs => xs.foldl max x

/-- Delay impairment `Id`: piecewise-linear in the effective latency with
breakpoint 177.3. -/
def idOf (effectiveLatency : ℚ) : ℚ :=
  if effectiveLatency < 177.3 then 0.024 * effectiveLatency
  else 0.024 * effectiveLatency + 0.11 * (effectiveLatency - 177.3)

/-- Loss impairment `Ie_eff = 10 + (95 - 10) * (lossPct / (lossPct + 17))`. -/
def ieEffOf (packetLossPercent : ℚ) : ℚ :=
  10 + (95 - 10) * (packetLossPercent / (packetLossPercent + 17))

/-- `R = max(0, min(100, 94.2 - Id - Ie_eff - 1.5))`. -/
def rFactorOf (Id packetLossPercent : ℚ) : ℚ :=
  max 0 (min 100 (94.2 - Id - ieEffOf packetLossPercent - 1.5))

/-- The R-to-MOS assignment before the final clamp: `mosScore` starts at
1.0, the branch `0 <= R < 100` applies the cubic map, `R >= 100` yields
4.5. -/
def mosPre (R : ℚ) : ℚ :=
  if 0 ≤ R ∧ R < 100 then 1 + 0.035 * R + R * (R - 60) * (100 - R) * 7 * 0.000001
  else if 100 ≤ R then 4.5
  else 1

/-- `mosScore = Math.max(1.0, Math.min(5.0, mosScore))`. -/
def mosFromR (R : ℚ) : ℚ := max 1 (min 5 (mosPre R))

/-- The whole E-model reduction of `calculateMetrics`, as a function of
the delay impairment `Id` and the packet-loss percentage. -/
def mosOf (Id packetLossPercent : ℚ) : ℚ :=
  mosFromR (rFactorOf Id packetLossPercent)

/-- Result record of `calculateMetrics` (interface `CallMetrics`).  The
two `Date` fields are modelled by their epoch-millisecond values
(`new Date(captureTime / 1000)` truncates toward zero). -/
structure CallMetrics where
  startTime : Int
  endTime : Int
  duration : ℚ
  packetsSent : Nat
  packetsReceived : Nat
  packetsLost : Nat
  avgJitter : ℚ
  maxJitter : ℚ
  avgLatency : ℚ
  maxLatency : ℚ
  mosScore : ℚ
  codec : String
  deriving DecidableEq, Repr

/-- `calculateMetrics(rtpPackets)` from pcap-parser.ts.  The
`throw new Error('No RTP packets to analyze')` on an empty list is
modelled as `none`. -/
def calculateMetrics (rtpPackets : List RTPPacket) : Option CallMetrics :=
  match rtpPackets with
  | [] => none
  | _ :: _ =>
    let sorted := seqSorted rtpPackets
    let packetsLost := lossWalk sorted
    let jv := jitterValuesOf sorted
    let avgJitter := avgOfList jv
    let maxJitter := jsMaxList jv
    let avgLatency := avgJitter * 4
    let maxLatency := maxJitter * 4
    let totalPackets := sorted.length + packetsLost
    let packetLossPercent : ℚ := ((packetsLost : ℚ) / (totalPackets : ℚ)) * 100
    let effectiveLatency := avgLatency + avgJitter * 2
    let first := sorted.headD default
    let last := sorted.getLastD default
    some
      { startTime := first.captureTime.tdiv 1000
        endTime := last.captureTime.tdiv 1000
        duration := ((last.captureTime - first.captureTime : Int) : ℚ) / 1000000
        packetsSent := totalPackets
        packetsReceived := sorted.length
        packetsLost := packetsLost
        avgJitter := avgJitter
        maxJitter := maxJitter
        avgLatency := avgLatency
        maxLatency := maxLatency
        mosScore := mosOf (idOf effectiveLatency) packetLossPercent
        codec := "G.711" }

/-! ## parseSIPMessage

The byte-to-text UTF-8 decode (`new TextDecoder('utf-8', {fatal:false})`)
is elided: the model takes the decoded text.  The fields `callId`,
`content` and `sdpBody` of the source interface are omitted from the
model record: no claim reads them (the Call-ID grouping happens upstream
of the claimed correlation loop, which receives the call map as input). -/

/-- JavaScript's `\s` character class (WhiteSpace ∪ LineTerminator). -/
def jsSpace (c : Char) : Bool :=
  c = ' ' || c = '\t' || c = '\n' || c = '\r' || c = '\x0B' || c = '\x0C' ||
  c = '\u00A0' || c = '\u1680' || ('\u2000' ≤ c && c ≤ '\u200A') ||
  c = '\u2028' || c = '\u2029' || c = '\u202F' || c = '\u205F' ||
  c = '\u3000' || c = '\uFEFF'

/-- The `[A-Z]` character class. -/
def isUpperAZ (c : Char) : Bool := 'A' ≤ c && c ≤ 'Z'

/-- The `\d` character class. -/
def isDigit09 (c : Char) : Bool := '0' ≤ c && c ≤ '9'

/-- `text.split(/\r?\n/)[0]`: everything before the first `'\n'`, minus
one immediately preceding `'\r'`; when the text has no `'\n'` at all the
regex never matches and the whole text is the first line (a trailing
`'\r'` is then kept). -/
def firstLineOf (text : List Char) : List Char :=
  let pre := text.takeWhile (fun c => c ≠ '\n')
  if pre.length < text.length then
    if pre.getLast? = some '\r' then pre.dropLast else pre
  else pre

/-- The characters of the version token `'SIP/2.0'`. -/
def sipToken : List Char := ['S', 'I', 'P', '/', '2', '.', '0']

/-- `text.includes(needle)`: substring containment. -/
def hasSub : List Char → List Char → Bool
  | needle, [] => needle.isEmpty
  | needle, c :: rest => needle.isPrefixOf (c :: rest) || hasSub needle rest

/-- `firstLine.match(/^([A-Z]+)\s/)`: the maximal leading uppercase run,
accepted only when nonempty and followed by a whitespace character
(no other backtracking can succeed, since an uppercase character is not
whitespace). -/
def methodOf (firstLine : List Char) : Option String :=
  let run := firstLine.takeWhile isUpperAZ
  if run.length ≠ 0 && ((firstLine.drop run.length).head?.any jsSpace) then
    some (String.mk run)
  else none

/-- `parseInt` of a digit run. -/
def natOfDigits (ds : List Char) : Nat :=
  ds.foldl (fun acc c => acc * 10 + (c.toNat - 48)) 0

/-- `firstLine.match(/^SIP\/2\.0\s+(\d+)/)` (evaluated only when
`firstLine` starts with the version token): after the 7 token characters,
a nonempty whitespace run followed by a nonempty digit run, whose
`parseInt` value is the status code. -/
def statusOf (firstLine : List Char) : Option Nat :=
  let rest := firstLine.drop 7
  let sp := rest.takeWhile jsSpace
  let ds := (rest.drop sp.length).takeWhile isDigit09
  if sp.length ≠ 0 && ds.length ≠ 0 then some (natOfDigits ds) else none

/-- Result of `parseSIPMessage` (interface `SIPMessage`); the `Date` is
modelled by its epoch-millisecond value. -/
structure SIPMessage where
  timestampMs : Int
  sourceIp : String
  sourcePort : Nat
  destIp : String
  destPort : Nat
  method : Option String
  statusCode : Option Nat
  deriving DecidableEq, Repr

/-- `parseSIPMessage(udpPayload, ...)` from pcap-parser.ts, on the decoded
text: reject unless the text starts with or contains `'SIP/2.0'`; then the
first line decides request (leading uppercase verb) versus response
(status code after the version token). -/
def parseSIPMessage (text : String) (sourceIp : String) (sourcePort : Nat)
    (destIp : String) (destPort : Nat) (timestampMs : Int) : Option SIPMessage :=
  let chars := text.toList
  if ¬ (sipToken.isPrefixOf chars || hasSub sipToken chars) then none
  else
    let fl := firstLineOf chars
    if sipToken.isPrefixOf fl then
      some { timestampMs, sourceIp, sourcePort, destIp, destPort,
             method := none, statusCode := statusOf fl }
    else
      some { timestampMs, sourceIp, sourcePort, destIp, destPort,
             method := methodOf fl, statusCode := none }

/-! ## The capture reader of parsePcapFile

`parsePcapFile` interleaves the container walk with per-frame link/IP/UDP
classification.  The embedding below is its reader half: magic-number
dispatch, the 24-byte global-header skip, and the per-record loop; the
classification applied to each frame is embedded separately
(`parseRTPPacket`, `parseSIPMessage`).  A `DataView` read past the end of
a buffer shorter than 4 bytes throws a `RangeError`; that is the first
error case. -/

/-- `DataView.getUint32` of four bytes in the selected byte order. -/
def u32 (littleEndian : Bool) (b0 b1 b2 b3 : Nat) : Nat :=
  if littleEndian then b3 * 16777216 + b2 * 65536 + b1 * 256 + b0
  else b0 * 16777216 + b1 * 65536 + b2 * 256 + b3

/-- `getUint32(0, littleEndian)` at the head of a byte list. -/
def u32At (littleEndian : Bool) (l : List Nat) : Nat :=
  u32 littleEndian (l.getD 0 0) (l.getD 1 0) (l.getD 2 0) (l.getD 3 0)

/-- A raw capture frame: `captureTime = ts_sec * 1000000 + ts_usec`
(microseconds) and the `incl_len` payload bytes. -/
structure RawFrame where
  captureTime : Nat
  payload : List Nat
  deriving DecidableEq, Repr

/-- The frame loop of `parsePcapFile` on the bytes after the global
header: `while (offset + 16 <= length)` read `ts_sec`, `ts_usec`,
`incl_len` (the fourth header word, `orig_len`, is never read); stop
cleanly when the declared payload overruns the buffer; otherwise emit the
frame and continue after its payload. -/
def readRecords (littleEndian : Bool) (rest : List Nat) : List RawFrame :=
  if _h : rest.length < 16 then []
  else
    let ts_sec := u32At littleEndian rest
    let ts_usec := u32At littleEndian (rest.drop 4)
    let incl_len := u32At littleEndian (rest.drop 8)
    let body := rest.drop 16
    if incl_len > body.length then []
    else
      { captureTime := ts_sec * 1000000 + ts_usec, payload := body.take incl_len } ::
        readRecords littleEndian (body.drop incl_len)
termination_by rest.length
decreasing_by simp only [List.length_drop]; omega

/-- The reader half of `parsePcapFile(pcapBytes)`: validate the magic
number (big-endian read of the first four bytes), select the byte order,
skip the 24-byte global header, and walk the frame records.  The
`throw new Error('Unsupported PCAP format...')` and the `RangeError` of a
sub-4-byte buffer are the `.error` cases. -/
def parsePcapFrames (pcapBytes : List Nat) : Except String (List RawFrame) :=
  if pcapBytes.length < 4 then
    .error "RangeError: Offset is outside the bounds of the DataView"
  else
    let magicNumber := u32At false pcapBytes
    if magicNumber = 0xa1b2c3d4 then .ok (readRecords false (pcapBytes.drop 24))
    else if magicNumber = 0xd4c3b2a1 then .ok (readRecords true (pcapBytes.drop 24))
    else .error "Unsupported PCAP format"

/-! ## The RTP-stream-to-call correlation loop of analyze-pcap/index.ts

JavaScript `Map`s are modelled as association lists in insertion order
with unique keys; `Map.set` updates an existing key in place and
otherwise appends.  The loop receives the call map built from the SIP
messages (grouped by Call-ID upstream) and the per-ssrc packet map. -/

/-- `Map.set(k, v)`: replace the value at an existing key (keeping its
position), else append the new binding. -/
def jsMapSet [BEq κ] (m : List (κ × β)) (k : κ) (v : β) : List (κ × β) :=
  if m.any (fun e => e.1 == k) then
    m.map (fun e => if e.1 == k then (k, v) else e)
  else m ++ [(k, v)]

/-- Value of one call map entry: the call's SIP messages and its attached
RTP streams (keyed by ssrc). -/
structure CallData where
  sipMessages : List SIPMessage
  rtpStreams : List (Int × List RTPPacket)
  deriving DecidableEq, Repr

/-- The call map: Call-ID (or synthesized id) to call data, first-seen
order. -/
abbrev CallMap := List (String × CallData)

/-- `callData.sipMessages.find(m => m.method === 'INVITE')`. -/
def findInvite (msgs : List SIPMessage) : Option SIPMessage :=
  msgs.find? (fun msg => msg.method == some "INVITE")

/-- `new Date(firstPacket.captureTime / 1000).getTime()`: the epoch
milliseconds of a packet (`Date` truncates toward zero). -/
def packetTimeMs (p : RTPPacket) : Int := p.captureTime.tdiv 1000

/-- The loop's address condition:
`(invite.sourceIp === p.sourceIp || invite.destIp === p.sourceIp) &&
 (invite.sourceIp === p.destIp || invite.destIp === p.destIp)`. -/
def ipMatch (invite : SIPMessage) (fp : RTPPacket) : Bool :=
  (invite.sourceIp == fp.sourceIp || invite.destIp == fp.sourceIp) &&
  (invite.sourceIp == fp.destIp || invite.destIp == fp.destIp)

/-- Qualification of one call for a stream's first packet: the call's
first INVITE exists, `ipMatch` holds and the absolute time difference is
under 10000 ms; the value is that difference. -/
def qualDiff (fp : RTPPacket) (c : CallData) : Option Int :=
  match findInvite c.sipMessages with
  | none => none
  | some invite =>
    let timeDiff := |packetTimeMs fp - invite.timestampMs|
    if ipMatch invite fp && decide (timeDiff < 10000) then some timeDiff else none

/-- One iteration of the candidate scan: a qualifying call replaces the
running best exactly when its time difference is strictly smaller
(`timeDiff < minTimeDiff`, with `minTimeDiff` initially `Infinity`). -/
def bestStep (fp : RTPPacket) (best : Option (String × Int)) (e : String × CallData) :
    Option (String × Int) :=
  match qualDiff fp e.2 with
  | none => best
  | some d =>
    match best with
    | none => some (e.1, d)
    | some b => if d < b.2 then some (e.1, d) else best

/-- The candidate scan of the correlation loop: the qualifying call with
the smallest time difference, first-seen winning ties. -/
def bestMatch (callMap : CallMap) (fp : RTPPacket) : Option (String × Int) :=
  callMap.foldl (bestStep fp) none

/-- `callMap.get(matchedCallId)!.rtpStreams.set(ssrc, packets)`. -/
def addStreamTo (c : CallData) (ssrc : Int) (packets : List RTPPacket) : CallData :=
  { c with rtpStreams := jsMapSet c.rtpStreams ssrc packets }

/-- Processing of one `(ssrc, packets)` entry of the stream map: empty
streams are skipped; a matched stream is attached to the matched call;
otherwise `callMap.set('rtp-' + ssrc, {sipMessages: [], rtpStreams:
Map([[ssrc, packets]])})`. -/
def attachStream (callMap : CallMap) (ssrc : Int) (packets : List RTPPacket) : CallMap :=
  match packets with
  | [] => callMap
  | fp :: _ =>
    match bestMatch callMap fp with
    | some b =>
      callMap.map (fun e => if e.1 == b.1 then (e.1, addStreamTo e.2 ssrc packets) else e)
    | none =>
      jsMapSet callMap ("rtp-" ++ toString ssrc)
        { sipMessages := [], rtpStreams := [(ssrc, packets)] }

/-- The whole `for (const [ssrc, packets] of allRtpPackets)` loop. -/
def correlateStreams (callMap : CallMap) (streams : List (Int × List RTPPacket)) : CallMap :=
  streams.foldl (fun m s => attachStream m s.1 s.2) callMap

/-! ## The interval-metrics loop of analyze-pcap/index.ts -/

/-- One emitted interval row (`interval_start`/`interval_end` are kept as
the window's microsecond bounds; the code renders them as ISO strings of
`new Date(bound / 1000)`; the database row id is omitted). -/
structure IntervalMetric where
  intervalStart : Int
  intervalEnd : Int
  jitter : ℚ
  latency : ℚ
  packetLoss : Nat
  mosScore : ℚ
  deriving DecidableEq, Repr

/-- `Math.ceil(a / b)` for integer `a` and positive integer `b`. -/
def ceilDiv (a b : Int) : Int := (a + b - 1).ediv b

/-- `allPackets[0].captureTime` (the call's packets are sorted by capture
time before this loop). -/
def callStartTime (allPackets : List RTPPacket) : Int :=
  (allPackets.headD default).captureTime

/-- `allPackets[allPackets.length - 1].captureTime`. -/
def callEndTime (allPackets : List RTPPacket) : Int :=
  (allPackets.getLastD default).captureTime

/-- `numIntervals = Math.ceil((endTime - startTime) / 5000000)`. -/
def numWindows (allPackets : List RTPPacket) : Int :=
  ceilDiv (callEndTime allPackets - callStartTime allPackets) 5000000

/-- The packets of the window starting at `ws`:
`captureTime in [ws, ws + 5000000)`. -/
def windowPackets (allPackets : List RTPPacket) (ws : Int) : List RTPPacket :=
  allPackets.filter fun p =>
    decide (ws ≤ p.captureTime) && decide (p.captureTime < ws + 5000000)

/-- The row pushed for one emitted window. -/
def mkIntervalRec (ws we : Int) (m : CallMetrics) : IntervalMetric :=
  { intervalStart := ws, intervalEnd := we, jitter := m.avgJitter,
    latency := m.avgLatency, packetLoss := m.packetsLost, mosScore := m.mosScore }

/-- One iteration of the interval loop: skip the first and last window
when there are more than 3 windows; otherwise filter the window's packets
and emit a row only when more than 5 packets fall inside (the
`try/catch` around `calculateMetrics` maps a thrown error to no row). -/
def intervalStep (allPackets : List RTPPacket) (startTime : Int) (numIntervals : Int)
    (i : Nat) : List IntervalMetric :=
  if (i = 0 ∧ numIntervals > 3) ∨ ((i : Int) = numIntervals - 1 ∧ numIntervals > 3) then []
  else
    let intervalStart := startTime + (i : Int) * 5000000
    let intervalPackets := windowPackets allPackets intervalStart
    if intervalPackets.length > 5 then
      match calculateMetrics intervalPackets with
      | some m => [mkIntervalRec intervalStart (intervalStart + 5000000) m]
      | none => []
    else []

/-- The interval-metrics loop for one call (its combined, capture-time
sorted packet list; the loop runs only for calls that produced a metrics
row, hence on a nonempty list). -/
def intervalMetricsOf (allPackets : List RTPPacket) : List IntervalMetric :=
  match allPackets with
  | [] => []
  | _ :: _ =>
    ((List.range (numWindows allPackets).toNat).map
      (intervalStep allPackets (callStartTime allPackets) (numWindows allPackets))).flatten

/-! ## Definitions taken from the specification's words

The definitions in this section are NOT translations of the source; they
transcribe the claim/specification text, to be compared against the
embedded code. -/

/-- Claim C1's jitter samples over a given packet order: for every packet
after the first, `abs(transit[i] - transit[i-1])` divided by 1000. -/
def specJitterSamples (l : List RTPPacket) : List ℚ :=
  List.zipWith (fun a b => ((|transit b - transit a| : Int) : ℚ) / 1000) l l.tail

/-- Claim C1's "arithmetic mean" of the samples (0 on no samples, matching
the code's empty-list guard since `0 / 0 = 0` in `ℚ`). -/
def specMean (l : List ℚ) : ℚ := l.sum / l.length

/-- Claim C1's "maximum" of the samples (0 on no samples). -/
def specMax (l : List ℚ) : ℚ := (l.max?).getD 0

/-- Stable insertion by capture time: the new packet goes before the
first packet with a capture time not smaller than its own. -/
def insertByCapture (p : RTPPacket) : List RTPPacket → List RTPPacket
  | [] => [p]
  | q :: qs =>
    if q.captureTime < p.captureTime then q :: insertByCapture p qs else p :: q :: qs

/-- Claim C1's "capture-time order": the packet list stably sorted by
capture time. -/
def captureOrdered : List RTPPacket → List RTPPacket
  | [] => []
  | p :: ps => insertByCapture p (captureOrdered ps)

/-- Claim C4's address condition: the stream's source/destination pair
equals the INVITE's source/destination pair in either order. -/
def specPairMatchEitherOrder (invite : SIPMessage) (fp : RTPPacket) : Bool :=
  (invite.sourceIp == fp.sourceIp && invite.destIp == fp.destIp) ||
  (invite.sourceIp == fp.destIp && invite.destIp == fp.sourceIp)

/-! ## Synthetic capture construction for claim C3 -/

/-- Little/big-endian 4-byte encoding of a 32-bit value. -/
def u32bytes (littleEndian : Bool) (n : Nat) : List Nat :=
  if littleEndian then [n % 256, n / 256 % 256, n / 65536 % 256, n / 16777216 % 256]
  else [n / 16777216 % 256, n / 65536 % 256, n / 256 % 256, n % 256]

/-- A synthetic frame: capture seconds, capture microseconds, payload. -/
structure SynthFrame where
  sec : Nat
  usec : Nat
  payload : List Nat
  deriving DecidableEq, Repr

/-- A well-formed 16-byte frame record followed by exactly its declared
`includedLength` payload bytes (`origLen` is encoded as the payload length
as standard capture tools do; the reader never reads it). -/
def encodeFrame (littleEndian : Bool) (f : SynthFrame) : List Nat :=
  u32bytes littleEndian f.sec ++ u32bytes littleEndian f.usec ++
    u32bytes littleEndian f.payload.length ++ u32bytes littleEndian f.payload.length ++
    f.payload

/-- The magic number in file byte order: `0xa1b2c3d4` stored big-endian,
or byte-swapped for a little-endian capture. -/
def magicBytes (littleEndian : Bool) : List Nat :=
  if littleEndian then [0xd4, 0xc3, 0xb2, 0xa1] else [0xa1, 0xb2, 0xc3, 0xd4]

/-- A synthetic capture buffer: 4-byte magic, the remaining 20 bytes of
the 24-byte global header, then the frame records. -/
def encodeCapture (littleEndian : Bool) (hdrRest : List Nat)
    (frames : List SynthFrame) : List Nat :=
  magicBytes littleEndian ++ hdrRest ++ (frames.map (encodeFrame littleEndian)).flatten

/-- The frame the reader must recover from a synthetic frame. -/
def expectedFrame (f : SynthFrame) : RawFrame :=
  { captureTime := f.sec * 1000000 + f.usec, payload := f.payload }

/-- A packet holding the fields the metrics claims read; the protocol
fields that no metrics code touches are fixed to representative values. -/
def mkPacket (seq : Nat) (captureTime timestamp : Int) (sourceIp destIp : String) :
    RTPPacket :=
  { version := 2, padding := false, extension := false, csrcCount := 0, marker := false,
    payloadType := 0, sequenceNumber := seq, timestamp := timestamp, ssrc := 1,
    payload := [], captureTime := captureTime, sourceIp := sourceIp, sourcePort := 5004,
    destIp := destIp, destPort := 5004 }

/-! # Theorems

General-purpose lemmas first, then one theorem (plus counterexample /
witness where required) per claim. -/

theorem descRun_append (cmp : α → α → Int) :
    ∀ (l : List α) (prev : α), (descRun cmp prev l).1 ++ (descRun cmp prev l).2 = l := by
  intro l
  induction l with
  | nil => intro prev; rfl
  | cons x xs ih =>
    intro prev
    by_cases h : cmp x prev < 0 <;> simp [descRun, h, ih x]

theorem ascRun_append (cmp : α → α → Int) :
    ∀ (l : List α) (prev : α), (ascRun cmp prev l).1 ++ (ascRun cmp prev l).2 = l := by
  intro l
  induction l with
  | nil => intro prev; rfl
  | cons x xs ih =>
    intro prev
    by_cases h : 0 ≤ cmp x prev <;> simp [ascRun, h, ih x]

theorem initialRun_perm (cmp : α → α → Int) (l : List α) :
    List.Perm ((initialRun cmp l).1 ++ (initialRun cmp l).2) l := by
  match l with
  | [] => simp [initialRun]
  | [a] => simp [initialRun]
  | a :: b :: rest =>
    by_cases h : cmp b a < 0
    · simp only [initialRun, if_pos h]
      refine List.Perm.trans (List.Perm.append_right _ (List.reverse_perm _)) ?_
      have := descRun_append cmp rest b
      simp [this]
    · simp [initialRun, if_neg h, ascRun_append cmp rest b]

theorem binPosAux_le (cmp : α → α → Int) (pivot : α) (sorted : List α) :
    ∀ (f left right : Nat), left ≤ right → binPosAux cmp pivot sorted f left right ≤ right := by
  intro f
  induction f with
  | zero => intro left right h; exact h
  | succ f ih =>
    intro left right h
    simp only [binPosAux]
    by_cases hlr : left < right
    · simp only [if_pos hlr]
      by_cases hc : cmp pivot (sorted.getD (left + (right - left) / 2) pivot) < 0
      · simp only [if_pos hc]
        exact le_trans (ih _ _ (by omega)) (by omega)
      · simp only [if_neg hc]
        exact ih _ _ (by omega)
    · simp only [if_neg hlr]; exact h

theorem binPos_le_length (cmp : α → α → Int) (pivot : α) (sorted : List α) :
    binPos cmp pivot sorted ≤ sorted.length :=
  binPosAux_le cmp pivot sorted _ 0 sorted.length (Nat.zero_le _)

theorem insertIdx_perm_cons (a : α) :
    ∀ (n : Nat) (l : List α), n ≤ l.length → List.Perm (l.insertIdx n a) (a :: l) := by
  intro n
  induction n with
  | zero => intro l _; simp
  | succ n ih =>
    intro l hl
    match l with
    | [] => simp at hl
    | x :: xs =>
      simp only [List.insertIdx_succ_cons]
      refine List.Perm.trans (List.Perm.cons x (ih xs (by simpa using hl))) ?_
      exact List.Perm.swap a x xs

theorem binInsertAll_perm (cmp : α → α → Int) :
    ∀ (rest sorted : List α), List.Perm (binInsertAll cmp sorted rest) (sorted ++ rest) := by
  intro rest
  induction rest with
  | nil => intro sorted; simp [binInsertAll]
  | cons x xs ih =>
    intro sorted
    simp only [binInsertAll, List.foldl_cons]
    refine List.Perm.trans (ih _) ?_
    refine List.Perm.trans (List.Perm.append_right xs
      (insertIdx_perm_cons x _ sorted (binPos_le_length cmp x sorted))) ?_
    simp only [List.cons_append]
    exact List.Perm.symm List.perm_middle

theorem v8SortSmall_perm (cmp : α → α → Int) (l : List α) :
    List.Perm (v8SortSmall cmp l) l := by
  unfold v8SortSmall
  exact List.Perm.trans (binInsertAll_perm cmp _ _) (initialRun_perm cmp l)

theorem seqSorted_perm (l : List RTPPacket) : List.Perm (seqSorted l) l :=
  v8SortSmall_perm jsCompareSeq l

theorem mem_seqSorted {p : RTPPacket} {l : List RTPPacket} (h : p ∈ seqSorted l) : p ∈ l :=
  (seqSorted_perm l).mem_iff.mp h

theorem jitterWalk_eq_samples :
    ∀ (qs : List RTPPacket) (q : RTPPacket), transit q ≠ 0 → (∀ p ∈ qs, transit p ≠ 0) →
    jitterWalk (transit q) qs = specJitterSamples (q :: qs) := by
  intro qs
  induction qs with
  | nil => intro q _ _; rfl
  | cons r rs ih =>
    intro q hq hall
    have hr : transit r ≠ 0 := hall r (by simp)
    have hrs : ∀ p ∈ rs, transit p ≠ 0 := fun p hp => hall p (by simp [hp])
    simp only [jitterWalk, if_pos hq]
    rw [ih r hr hrs]
    simp [specJitterSamples]

theorem jitterValuesOf_eq_spec (l : List RTPPacket) (h : ∀ p ∈ l, transit p ≠ 0) :
    jitterValuesOf l = specJitterSamples l := by
  match l with
  | [] => rfl
  | q :: qs =>
    have hq : transit q ≠ 0 := h q (by simp)
    have hqs : ∀ p ∈ qs, transit p ≠ 0 := fun p hp => h p (by simp [hp])
    simp only [jitterValuesOf, jitterWalk, ne_eq, not_true_eq_false, if_false,
      List.nil_append]
    · rw [jitterWalk_eq_samples qs q hq hqs]

theorem avgOfList_eq_specMean (l : List ℚ) : avgOfList l = specMean l := by
  unfold avgOfList specMean
  by_cases h : l.length = 0
  · simp [h]
  · simp [h, List.sum_eq_foldl]

theorem jsMaxList_eq_specMax (l : List ℚ) : jsMaxList l = specMax l := by
  match l with
  | [] => rfl
  | x :: xs => simp [jsMaxList, specMax, List.max?]

/-- C1 (amended): in `calculateMetrics` the jitter samples are computed by
walking the packets in the sequence-number-sorted order (the loss-sort
order, not capture-time order); provided no packet's transit
(`captureTime - streamTimestamp`) is zero, every packet after the first
contributes the sample `abs(transit[i] - transit[i-1]) / 1000`, and
`avgJitter` is the arithmetic mean and `maxJitter` the maximum of those
samples. -/
theorem calculateMetrics_jitter_seq_order :
    ∀ (l : List RTPPacket), l ≠ [] → (∀ p ∈ l, transit p ≠ 0) →
    jitterValuesOf (seqSorted l) = specJitterSamples (seqSorted l) ∧
    (calculateMetrics l).map (fun m => m.avgJitter) =
      some (specMean (specJitterSamples (seqSorted l))) ∧
    (calculateMetrics l).map (fun m => m.maxJitter) =
      some (specMax (specJitterSamples (seqSorted l))) := by
  intro l hne h
  have hs : ∀ p ∈ seqSorted l, transit p ≠ 0 := fun p hp => h p (mem_seqSorted hp)
  have h1 : jitterValuesOf (seqSorted l) = specJitterSamples (seqSorted l) :=
    jitterValuesOf_eq_spec _ hs
  obtain ⟨p, ps, rfl⟩ := List.exists_cons_of_ne_nil hne
  refine ⟨h1, ?_, ?_⟩ <;>
    simp [calculateMetrics, h1, avgOfList_eq_specMean, jsMaxList_eq_specMax]

/-- C1 (counterexample): on the packet list below (sequence numbers
`[2, 1, 3]`, capture times `[1000, 2000, 3000]`, stream timestamps
`[0, 1900, 0]`) the code's average jitter (walking the sequence-sorted
order: 29/20) differs from the value claimed (walking the capture-time
order: 19/10), so jitter is not computed over capture-time order. -/
theorem calculateMetrics_jitter_capture_order_fails :
    (calculateMetrics [mkPacket 2 1000 0 "10.0.0.1" "10.0.0.2",
        mkPacket 1 2000 1900 "10.0.0.1" "10.0.0.2",
        mkPacket 3 3000 0 "10.0.0.1" "10.0.0.2"]).map (fun m => m.avgJitter) ≠
      some (specMean (specJitterSamples (captureOrdered
        [mkPacket 2 1000 0 "10.0.0.1" "10.0.0.2",
         mkPacket 1 2000 1900 "10.0.0.1" "10.0.0.2",
         mkPacket 3 3000 0 "10.0.0.1" "10.0.0.2"]))) := by
  have h1 : (calculateMetrics [mkPacket 2 1000 0 "10.0.0.1" "10.0.0.2",
      mkPacket 1 2000 1900 "10.0.0.1" "10.0.0.2",
      mkPacket 3 3000 0 "10.0.0.1" "10.0.0.2"]).map (fun m => m.avgJitter) =
      some (29 / 20) := by
    simp [calculateMetrics, seqSorted, v8SortSmall, initialRun, descRun, ascRun,
      binInsertAll, binPos, binPosAux, jsCompareSeq, jitterValuesOf, jitterWalk,
      transit, avgOfList, jsMaxList, mkPacket]
    norm_num
  have h2 : specMean (specJitterSamples (captureOrdered
      [mkPacket 2 1000 0 "10.0.0.1" "10.0.0.2",
       mkPacket 1 2000 1900 "10.0.0.1" "10.0.0.2",
       mkPacket 3 3000 0 "10.0.0.1" "10.0.0.2"])) = 19 / 10 := by
    simp [specMean, specJitterSamples, captureOrdered, insertByCapture, transit,
      mkPacket]
    norm_num
  rw [h1, h2]
  intro h
  rw [Option.some_inj] at h
  norm_num at h

/-- C1 (witness): the amended theorem applied to a concrete two-packet
list with nonzero transits. -/
theorem calculateMetrics_jitter_seq_order_witness :
    (([mkPacket 1 10 4 "a" "b", mkPacket 2 25 5 "a" "b"] : List RTPPacket) ≠ []) ∧
    (∀ p ∈ [mkPacket 1 10 4 "a" "b", mkPacket 2 25 5 "a" "b"], transit p ≠ 0) ∧
    (calculateMetrics [mkPacket 1 10 4 "a" "b", mkPacket 2 25 5 "a" "b"]).map
        (fun m => m.avgJitter) =
      some (specMean (specJitterSamples (seqSorted
        [mkPacket 1 10 4 "a" "b", mkPacket 2 25 5 "a" "b"]))) :=
  ⟨by decide, by decide,
    (calculateMetrics_jitter_seq_order _ (by decide) (by decide)).2.1⟩

/-- C2 (code bug): on the wraparound vectors the comparator's JavaScript
remainder makes the sort collapse to numeric order, so `[65534, 0]`
reports 65533 lost packets (the claim and the specification require 1) and
`[65534, 65535, 0, 1]` reports 65532 (required: 0).  The additive
invariant `packetsSent = packetsReceived + packetsLost` does hold (second
and third components). -/
theorem calculateMetrics_wraparound_loss_bug :
    ((calculateMetrics [mkPacket 65534 0 0 "a" "b", mkPacket 0 0 0 "a" "b"]).map
        (fun m => (m.packetsLost, m.packetsSent, m.packetsReceived)) =
      some (65533, 65535, 2)) ∧
    ((calculateMetrics [mkPacket 65534 0 0 "a" "b", mkPacket 65535 0 0 "a" "b",
        mkPacket 0 0 0 "a" "b", mkPacket 1 0 0 "a" "b"]).map
        (fun m => (m.packetsLost, m.packetsSent, m.packetsReceived)) =
      some (65532, 65536, 4)) := by decide

/-- C8: the G.711 mu-law expansion at the two documented fixed vectors:
`mulawToPcm(0xFF) = 0` and `mulawToPcm(0x00) = -32124`. -/
theorem mulawToPcm_fixed_vectors : mulawToPcm 0xFF = 0 ∧ mulawToPcm 0x00 = -32124 := by
  decide

/-- C10: `parseRTPPacket` is total (this embedding returns, never
throws, on every byte list): it yields `none` exactly when the payload is
shorter than 12 bytes or the top two bits of byte 0 are not 2; any
returned packet's payload is `udpPayload.slice(12 + 4*csrcCount)`, which
is empty whenever that header length reaches past the payload's end. -/
theorem parseRTPPacket_total_behavior :
    ∀ (p : List Nat) (ct : Int) (sIp : String) (sPort : Nat) (dIp : String) (dPort : Nat),
    (∀ b ∈ p, b < 256) →
    ((parseRTPPacket p ct sIp sPort dIp dPort = none) ↔
      (p.length < 12 ∨ (p.getD 0 0) >>> 6 &&& 3 ≠ 2)) ∧
    (∀ pkt, parseRTPPacket p ct sIp sPort dIp dPort = some pkt →
      pkt.payload = p.drop (12 + pkt.csrcCount * 4) ∧
      (p.length ≤ 12 + pkt.csrcCount * 4 → pkt.payload = [])) := by
  intro p ct sIp sPort dIp dPort _
  constructor
  · by_cases h1 : p.length < 12
    · simp [parseRTPPacket, h1]
    · by_cases h2 : (p.getD 0 0) >>> 6 &&& 3 ≠ 2 <;>
        simp [parseRTPPacket, h1, h2]
  · intro pkt hp
    by_cases h1 : p.length < 12
    · simp [parseRTPPacket, h1] at hp
    · simp [parseRTPPacket, h1] at hp
      obtain ⟨-, hrec⟩ := hp
      subst hrec
      refine ⟨rfl, fun hlen => List.drop_eq_nil_of_le ?_⟩
      simpa using hlen

/-- C10 (witness): a 12-byte RTP header with version 2 and csrcCount 15
(declared header length 72 > 12) parses to a packet with empty payload. -/
theorem parseRTPPacket_total_behavior_witness :
    ((∀ b ∈ [0x8F, 0, 0, 7, 0, 0, 0, 1, 0, 0, 0, 2], b < 256) ∧
      (parseRTPPacket [0x8F, 0, 0, 7, 0, 0, 0, 1, 0, 0, 0, 2] 0 "a" 1 "b" 2 = none ↔
        (([0x8F, 0, 0, 7, 0, 0, 0, 1, 0, 0, 0, 2] : List Nat).length < 12 ∨
          (([0x8F, 0, 0, 7, 0, 0, 0, 1, 0, 0, 0, 2] : List Nat).getD 0 0) >>> 6 &&& 3 ≠ 2))) ∧
    (∀ pkt, parseRTPPacket [0x8F, 0, 0, 7, 0, 0, 0, 1, 0, 0, 0, 2] 0 "a" 1 "b" 2 = some pkt →
      pkt.payload = [0x8F, 0, 0, 7, 0, 0, 0, 1, 0, 0, 0, 2].drop (12 + pkt.csrcCount * 4) ∧
      (([0x8F, 0, 0, 7, 0, 0, 0, 1, 0, 0, 0, 2] : List Nat).length ≤ 12 + pkt.csrcCount * 4 →
        pkt.payload = [])) :=
  ⟨⟨by decide,
    (parseRTPPacket_total_behavior [0x8F, 0, 0, 7, 0, 0, 0, 1, 0, 0, 0, 2] 0 "a" 1 "b" 2
      (by decide)).1⟩,
   (parseRTPPacket_total_behavior [0x8F, 0, 0, 7, 0, 0, 0, 1, 0, 0, 0, 2] 0 "a" 1 "b" 2
      (by decide)).2⟩

/-- C9 (amended): for every UDP payload accepted by `parseSIPMessage`, AT
MOST one of `method` and `statusCode` is set: a message whose first line
starts with the version token has no method and carries a status code
exactly when `statusOf` finds whitespace-then-digits after the token; a
message whose first line does not start with the token has no status code
and carries a method exactly when `methodOf` finds a leading uppercase run
followed by whitespace.  (The original "exactly one" fails: both
extractions can come up empty.) -/
theorem parseSIPMessage_at_most_one_of_method_status :
    ∀ (text : String) (sIp : String) (sPort : Nat) (dIp : String) (dPort : Nat)
      (ts : Int) (msg : SIPMessage),
    parseSIPMessage text sIp sPort dIp dPort ts = some msg →
    (¬ (msg.method.isSome ∧ msg.statusCode.isSome)) ∧
    (sipToken.isPrefixOf (firstLineOf text.toList) →
      msg.method = none ∧ msg.statusCode = statusOf (firstLineOf text.toList)) ∧
    (¬ sipToken.isPrefixOf (firstLineOf text.toList) →
      msg.statusCode = none ∧ msg.method = methodOf (firstLineOf text.toList)) := by
  intro text sIp sPort dIp dPort ts msg hmsg
  simp only [parseSIPMessage] at hmsg
  split at hmsg
  · exact absurd hmsg (by simp)
  · split at hmsg
    · rename_i hfl
      injection hmsg with h
      subst h
      exact ⟨by simp, fun _ => ⟨rfl, rfl⟩, fun hn => absurd hfl hn⟩
    · rename_i hfl
      injection hmsg with h
      subst h
      exact ⟨by simp, fun hc => absurd hc hfl, fun _ => ⟨rfl, rfl⟩⟩

/-- C9 (counterexample): the payload `"x SIP/2.0"` is accepted (it
contains the version token) but its first line neither starts with the
token nor begins with an uppercase verb, so the returned message has
NEITHER `method` nor `statusCode` set, refuting "exactly one of the
fields is set". -/
theorem parseSIPMessage_neither_method_nor_status :
    parseSIPMessage "x SIP/2.0" "10.0.0.1" 5060 "10.0.0.2" 5060 0 =
      some { timestampMs := 0, sourceIp := "10.0.0.1", sourcePort := 5060,
             destIp := "10.0.0.2", destPort := 5060,
             method := none, statusCode := none } := by decide

/-- C9 (witness): the amended theorem applied to a concrete response
message. -/
theorem parseSIPMessage_at_most_one_witness :
    (parseSIPMessage "SIP/2.0 200 OK\r\n" "a" 1 "b" 2 0 =
      some { timestampMs := 0, sourceIp := "a", sourcePort := 1, destIp := "b",
             destPort := 2, method := none, statusCode := some 200 }) ∧
    ¬ ((none : Option String).isSome ∧ (some 200 : Option Nat).isSome) :=
  ⟨by decide,
    (parseSIPMessage_at_most_one_of_method_status "SIP/2.0 200 OK\r\n" "a" 1 "b" 2 0
      { timestampMs := 0, sourceIp := "a", sourcePort := 1, destIp := "b",
        destPort := 2, method := none, statusCode := some 200 } (by decide)).1⟩

theorem ieEffOf_mono {p q : ℚ} (hp : 0 ≤ p) (hpq : p ≤ q) : ieEffOf p ≤ ieEffOf q := by
  unfold ieEffOf
  have h1 : (0:ℚ) < p + 17 := by linarith
  have h2 : (0:ℚ) < q + 17 := by linarith
  have h3 : p / (p + 17) ≤ q / (q + 17) := by
    rw [div_le_div_iff₀ h1 h2]
    nlinarith
  linarith

theorem ieEffOf_ge_ten {p : ℚ} (hp : 0 ≤ p) : 10 ≤ ieEffOf p := by
  unfold ieEffOf
  have h1 : (0:ℚ) < p + 17 := by linarith
  have h2 : 0 ≤ p / (p + 17) := div_nonneg hp (le_of_lt h1)
  linarith

theorem rFactorOf_nonneg (Id p : ℚ) : 0 ≤ rFactorOf Id p := le_max_left 0 _

theorem rFactorOf_lt_hundred {Id p : ℚ} (hId : 0 ≤ Id) (hp : 0 ≤ p) :
    rFactorOf Id p < 100 := by
  unfold rFactorOf
  have h10 := ieEffOf_ge_ten hp
  have hx : 94.2 - Id - ieEffOf p - 1.5 ≤ 82.7 := by linarith
  have h5 : max 0 (min 100 (94.2 - Id - ieEffOf p - 1.5)) ≤ 82.7 :=
    max_le (by norm_num) (le_trans (min_le_right _ _) hx)
  have : (82.7 : ℚ) < 100 := by norm_num
  linarith

theorem rFactorOf_anti {Id p q : ℚ} (hp : 0 ≤ p) (hpq : p ≤ q) :
    rFactorOf Id q ≤ rFactorOf Id p := by
  unfold rFactorOf
  have := ieEffOf_mono hp hpq
  exact max_le_max le_rfl (min_le_min le_rfl (by linarith))

theorem mosCubic_mono {x y : ℚ} (hx : 0 ≤ x) (hxy : x ≤ y) (hy : y ≤ 100)
    (h1 : 1 < 1 + 0.035 * x + x * (x - 60) * (100 - x) * 7 * 0.000001) :
    1 + 0.035 * x + x * (x - 60) * (100 - x) * 7 * 0.000001 ≤
      1 + 0.035 * y + y * (y - 60) * (100 - y) * 7 * 0.000001 := by
  have hprod : 0 < x * (160 * x - x ^ 2 - 1000) := by nlinarith
  have hxpos : 0 < x := by
    rcases lt_or_eq_of_le hx with h | h
    · exact h
    · exfalso; rw [← h] at hprod; simp at hprod
  have hS : 0 < 160 * x - x ^ 2 - 1000 := by
    by_contra hneg
    push_neg at hneg
    nlinarith
  have hy0 : 0 < y := lt_of_lt_of_le hxpos hxy
  have hx100 : x ≤ 100 := le_trans hxy hy
  have hQ : 0 ≤ 160 * (x + y) - (x ^ 2 + x * y + y ^ 2) - 1000 := by
    rcases le_or_lt x 60 with h60 | h60
    · have t1 : 0 ≤ y * (100 - y) := mul_nonneg (le_of_lt hy0) (by linarith)
      have t2 : 0 ≤ y * (60 - x) := mul_nonneg (le_of_lt hy0) (by linarith)
      nlinarith
    · have t1 : 0 ≤ y * (100 - y) := mul_nonneg (le_of_lt hy0) (by linarith)
      have t3 : 0 ≤ (100 - y) * (x - 60) := mul_nonneg (by linarith) (by linarith)
      have t4 : x * x ≤ x * 100 := by nlinarith
      nlinarith
  nlinarith [mul_nonneg (sub_nonneg.mpr hxy) hQ]

theorem mosFromR_mono {x y : ℚ} (hx : 0 ≤ x) (hxy : x ≤ y) (hy : y < 100) :
    mosFromR x ≤ mosFromR y := by
  unfold mosFromR mosPre
  rw [if_pos ⟨hx, lt_of_le_of_lt hxy hy⟩, if_pos ⟨le_trans hx hxy, hy⟩]
  rcases le_or_lt (1 + 0.035 * x + x * (x - 60) * (100 - x) * 7 * 0.000001) 1 with h | h
  · exact le_trans (max_le le_rfl (le_trans (min_le_right _ _) h)) (le_max_left _ _)
  · exact max_le_max le_rfl (min_le_min le_rfl (mosCubic_mono hx hxy (le_of_lt hy) h))

/-- C5: holding the delay impairment (determined by the fixed jitter and
latency inputs) fixed and nonnegative, the MOS score computed by
`calculateMetrics`'s E-model reduction is non-increasing in the
packet-loss percentage. -/
theorem mosOf_antitone_in_loss :
    ∀ (Id p q : ℚ), 0 ≤ Id → 0 ≤ p → p ≤ q → mosOf Id q ≤ mosOf Id p := by
  intro Id p q hId hp hpq
  unfold mosOf
  exact mosFromR_mono (rFactorOf_nonneg Id q) (rFactorOf_anti hp hpq)
    (rFactorOf_lt_hundred hId hp)

/-- C5 (witness): zero delay impairment, loss moving from 0% to 17%. -/
theorem mosOf_antitone_in_loss_witness :
    ((0:ℚ) ≤ 0) ∧ ((0:ℚ) ≤ 17) ∧ mosOf 0 17 ≤ mosOf 0 0 :=
  ⟨le_refl 0, by norm_num,
    mosOf_antitone_in_loss 0 0 17 (le_refl 0) (le_refl 0) (by norm_num)⟩

theorem u32bytes_length (b : Bool) (n : Nat) : (u32bytes b n).length = 4 := by
  cases b <;> rfl

theorem u32At_append_u32bytes (b : Bool) (n : Nat) (rest : List Nat)
    (h : n < 4294967296) : u32At b (u32bytes b n ++ rest) = n := by
  cases b <;> simp [u32bytes, u32At, u32] <;> omega

theorem readRecords_short (b : Bool) (rest : List Nat) (h : rest.length < 16) :
    readRecords b rest = [] := by
  rw [readRecords]
  simp [h]

theorem readRecords_overrun (b : Bool) (rest : List Nat) (h16 : ¬ rest.length < 16)
    (h : u32At b (rest.drop 8) > (rest.drop 16).length) :
    readRecords b rest = [] := by
  rw [readRecords]
  have h' : u32At b (rest.drop 8) > rest.length - 16 := by simpa using h
  simp [h16, h']

theorem readRecords_cons_eq (b : Bool) (rest : List Nat) (h16 : ¬ rest.length < 16)
    (hincl : ¬ u32At b (rest.drop 8) > (rest.drop 16).length) :
    readRecords b rest =
      { captureTime := u32At b rest * 1000000 + u32At b (rest.drop 4),
        payload := (rest.drop 16).take (u32At b (rest.drop 8)) } ::
        readRecords b ((rest.drop 16).drop (u32At b (rest.drop 8))) := by
  rw [readRecords]
  have h' : ¬ u32At b (rest.drop 8) > rest.length - 16 := by simpa using hincl
  simp [h16, h']

theorem readRecords_encodeFrame (b : Bool) (f : SynthFrame) (rest : List Nat)
    (hs : f.sec < 4294967296) (hu : f.usec < 4294967296)
    (hl : f.payload.length < 4294967296) :
    readRecords b (encodeFrame b f ++ rest) = expectedFrame f :: readRecords b rest := by
  have l1 := u32bytes_length b f.sec
  have l2 := u32bytes_length b f.usec
  have l3 := u32bytes_length b f.payload.length
  have hEq : encodeFrame b f ++ rest =
      u32bytes b f.sec ++ (u32bytes b f.usec ++ (u32bytes b f.payload.length ++
        (u32bytes b f.payload.length ++ (f.payload ++ rest)))) := by
    simp [encodeFrame, List.append_assoc]
  have hlen : (encodeFrame b f ++ rest).length = 16 + f.payload.length + rest.length := by
    simp [encodeFrame, l1, l2, l3]
    omega
  have hdrop4 : (encodeFrame b f ++ rest).drop 4 =
      u32bytes b f.usec ++ (u32bytes b f.payload.length ++
        (u32bytes b f.payload.length ++ (f.payload ++ rest))) := by
    rw [hEq]; exact List.drop_left' l1
  have hdrop8 : (encodeFrame b f ++ rest).drop 8 =
      u32bytes b f.payload.length ++ (u32bytes b f.payload.length ++ (f.payload ++ rest)) := by
    have h8 : (encodeFrame b f ++ rest).drop 8 = ((encodeFrame b f ++ rest).drop 4).drop 4 := by
      rw [List.drop_drop]
    rw [h8, hdrop4]; exact List.drop_left' l2
  have hdrop16 : (encodeFrame b f ++ rest).drop 16 = f.payload ++ rest := by
    have hEq16 : encodeFrame b f ++ rest =
        (u32bytes b f.sec ++ (u32bytes b f.usec ++ (u32bytes b f.payload.length ++
          u32bytes b f.payload.length))) ++ (f.payload ++ rest) := by
      simp [encodeFrame, List.append_assoc]
    rw [hEq16]
    exact List.drop_left' (by simp [l1, l2, l3])
  have hsec : u32At b (encodeFrame b f ++ rest) = f.sec := by
    rw [hEq]; exact u32At_append_u32bytes b f.sec _ hs
  have husec : u32At b ((encodeFrame b f ++ rest).drop 4) = f.usec := by
    rw [hdrop4]; exact u32At_append_u32bytes b f.usec _ hu
  have hincl : u32At b ((encodeFrame b f ++ rest).drop 8) = f.payload.length := by
    rw [hdrop8]; exact u32At_append_u32bytes b f.payload.length _ hl
  rw [readRecords_cons_eq b (encodeFrame b f ++ rest) (by omega)
    (by rw [hincl, hdrop16]; simp)]
  rw [hsec, husec, hincl, hdrop16]
  rw [List.take_left' rfl, List.drop_left' rfl]
  rfl

theorem readRecords_encodeList (b : Bool) :
    ∀ (frames : List SynthFrame),
    (∀ f ∈ frames, f.sec < 4294967296 ∧ f.usec < 4294967296 ∧
      f.payload.length < 4294967296) →
    readRecords b ((frames.map (encodeFrame b)).flatten) = frames.map expectedFrame := by
  intro frames
  induction frames with
  | nil =>
    intro _
    simp [readRecords_short b [] (by simp)]
  | cons f fs ih =>
    intro h
    obtain ⟨h1, h2, h3⟩ := h f (by simp)
    simp only [List.map_cons, List.flatten_cons]
    rw [readRecords_encodeFrame b f _ h1 h2 h3, ih (fun g hg => h g (by simp [hg]))]

/-- C3: round-trip container parsing.  For every synthetic capture built
from a valid magic number (either endianness), 20 further global-header
bytes and N well-formed frame records, the reader walks exactly those N
frames, with `captureTime = sec * 1000000 + usec` and the constructed
payload bytes. -/
theorem parsePcapFrames_roundtrip :
    ∀ (littleEndian : Bool) (hdrRest : List Nat) (frames : List SynthFrame),
    hdrRest.length = 20 →
    (∀ f ∈ frames, f.sec < 4294967296 ∧ f.usec < 4294967296 ∧
      f.payload.length < 4294967296) →
    parsePcapFrames (encodeCapture littleEndian hdrRest frames) =
      .ok (frames.map expectedFrame) := by
  intro b hdrRest frames hhdr hf
  have hdrop24 : (encodeCapture b hdrRest frames).drop 24 =
      (frames.map (encodeFrame b)).flatten := by
    have hEq : encodeCapture b hdrRest frames =
        (magicBytes b ++ hdrRest) ++ (frames.map (encodeFrame b)).flatten := by
      simp [encodeCapture, List.append_assoc]
    rw [hEq]
    refine List.drop_left' ?_
    cases b <;> simp [magicBytes, hhdr]
  have hlen4 : ¬ (encodeCapture b hdrRest frames).length < 4 := by
    cases b <;>
      · simp only [encodeCapture, magicBytes, if_true, Bool.false_eq_true, if_false,
          List.length_append, List.length_cons, List.length_nil]
        omega
  cases b with
  | false =>
    have hmagic : u32At false (encodeCapture false hdrRest frames) = 0xa1b2c3d4 := by
      simp only [encodeCapture, magicBytes, u32At, u32, if_true, Bool.false_eq_true,
        if_false, List.cons_append, List.getD_cons_zero, List.getD_cons_succ]
    simp only [parsePcapFrames]
    rw [if_neg hlen4, hmagic, if_pos rfl, hdrop24,
      readRecords_encodeList false frames hf]
  | true =>
    have hmagic : u32At false (encodeCapture true hdrRest frames) = 0xd4c3b2a1 := by
      simp only [encodeCapture, magicBytes, u32At, u32, if_true, Bool.false_eq_true,
        if_false, List.cons_append, List.getD_cons_zero, List.getD_cons_succ]
    simp only [parsePcapFrames]
    rw [if_neg hlen4, hmagic, if_neg (by norm_num), if_pos rfl, hdrop24,
      readRecords_encodeList true frames hf]

/-- C3 (witness): a one-frame big-endian capture with seconds 1,
microseconds 2 and payload `[5, 6]`. -/
theorem parsePcapFrames_roundtrip_witness :
    ((List.replicate 20 0 : List Nat).length = 20) ∧
    parsePcapFrames (encodeCapture false (List.replicate 20 0)
        [{ sec := 1, usec := 2, payload := [5, 6] }]) =
      .ok [{ captureTime := 1000002, payload := [5, 6] }] :=
  ⟨by decide, by
    have h := parsePcapFrames_roundtrip false (List.replicate 20 0)
      [{ sec := 1, usec := 2, payload := [5, 6] }] (by decide) (by decide)
    simpa [expectedFrame] using h⟩

/-- C7: the reader errors exactly when the big-endian read of the first
four bytes is neither `0xa1b2c3d4` nor `0xd4c3b2a1` (a buffer shorter
than four bytes cannot exhibit either value, and its `DataView` read
throws); once the magic number is valid the result is always `.ok`; and
the frame loop terminates cleanly, returning the frames decoded so far,
both when fewer than 16 bytes remain and when the declared
`includedLength` exceeds the remaining bytes. -/
theorem parsePcapFrames_error_behavior :
    (∀ (pcapBytes : List Nat),
      ((∃ e, parsePcapFrames pcapBytes = .error e) ↔
        (u32At false pcapBytes ≠ 0xa1b2c3d4 ∧ u32At false pcapBytes ≠ 0xd4c3b2a1)) ∧
      ((u32At false pcapBytes = 0xa1b2c3d4 ∨ u32At false pcapBytes = 0xd4c3b2a1) →
        ∃ frames, parsePcapFrames pcapBytes = .ok frames)) ∧
    (∀ (b : Bool) (rest : List Nat), rest.length < 16 → readRecords b rest = []) ∧
    (∀ (b : Bool) (rest : List Nat), ¬ rest.length < 16 →
      u32At b (rest.drop 8) > (rest.drop 16).length → readRecords b rest = []) := by
  refine ⟨?_, readRecords_short, readRecords_overrun⟩
  intro pcapBytes
  by_cases h4 : pcapBytes.length < 4
  · have hb3 : pcapBytes.getD 3 0 = 0 := List.getD_eq_default _ _ (by omega)
    have hmag : ∀ m : Nat, m % 256 ≠ 0 → u32At false pcapBytes ≠ m := by
      intro m hm heq
      apply hm
      rw [← heq]
      simp only [u32At, u32, Bool.false_eq_true, if_false, hb3]
      omega
    constructor
    · constructor
      · intro _
        constructor
        · exact hmag 0xa1b2c3d4 (by norm_num)
        · exact hmag 0xd4c3b2a1 (by norm_num)
      · intro _
        exact ⟨"RangeError: Offset is outside the bounds of the DataView",
          by simp [parsePcapFrames, h4]⟩
    · intro hv
      rcases hv with hv | hv
      · exact absurd hv (hmag 0xa1b2c3d4 (by norm_num))
      · exact absurd hv (hmag 0xd4c3b2a1 (by norm_num))
  · by_cases hm1 : u32At false pcapBytes = 0xa1b2c3d4
    · simp [parsePcapFrames, h4, hm1]
    · by_cases hm2 : u32At false pcapBytes = 0xd4c3b2a1 <;>
        simp [parsePcapFrames, h4, hm1, hm2]

/-- C7 (witness): `[0, 1, 2, 3]` has an invalid magic number and errors;
a three-byte tail ends the frame loop cleanly. -/
theorem parsePcapFrames_error_behavior_witness :
    (∃ e, parsePcapFrames [0, 1, 2, 3] = .error e) ∧
    readRecords false [1, 2, 3] = [] :=
  ⟨(parsePcapFrames_error_behavior.1 [0, 1, 2, 3]).1.mpr (by decide),
    parsePcapFrames_error_behavior.2.1 false [1, 2, 3] (by decide)⟩

theorem mem_intervalStep (ap : List RTPPacket) (st n : Int) (i : Nat) (r : IntervalMetric) :
    r ∈ intervalStep ap st n i ↔
      (¬ ((i = 0 ∧ n > 3) ∨ ((i : Int) = n - 1 ∧ n > 3)) ∧
        (windowPackets ap (st + (i : Int) * 5000000)).length > 5 ∧
        (calculateMetrics (windowPackets ap (st + (i : Int) * 5000000))).map
          (mkIntervalRec (st + (i : Int) * 5000000) (st + (i : Int) * 5000000 + 5000000)) =
          some r) := by
  unfold intervalStep
  by_cases hskip : (i = 0 ∧ n > 3) ∨ ((i : Int) = n - 1 ∧ n > 3)
  · simp [hskip]
  · simp only [if_neg hskip]
    by_cases hlen : (windowPackets ap (st + (i : Int) * 5000000)).length > 5
    · simp only [if_pos hlen]
      cases hm : calculateMetrics (windowPackets ap (st + (i : Int) * 5000000)) with
      | none => simp [hm, hskip, hlen]
      | some m => simp [hm, hskip, hlen, eq_comm]
    · simp [hlen, hskip]

/-- C6: interval segmentation policy.  A row appears in the
interval-metrics output exactly for the windows `[ws, ws + 5000000)` of
the call span that are not policy-excluded (first and last window when
there are more than 3 windows) and that hold more than 5 packets; every
other window is silently omitted, never zero-filled. -/
theorem intervalMetricsOf_policy :
    ∀ (allPackets : List RTPPacket), allPackets ≠ [] →
    ∀ r : IntervalMetric,
      r ∈ intervalMetricsOf allPackets ↔
        ∃ i : Nat, i < (numWindows allPackets).toNat ∧
          ¬ ((i = 0 ∧ numWindows allPackets > 3) ∨
             ((i : Int) = numWindows allPackets - 1 ∧ numWindows allPackets > 3)) ∧
          (windowPackets allPackets
            (callStartTime allPackets + (i : Int) * 5000000)).length > 5 ∧
          (calculateMetrics (windowPackets allPackets
              (callStartTime allPackets + (i : Int) * 5000000))).map
            (mkIntervalRec (callStartTime allPackets + (i : Int) * 5000000)
              (callStartTime allPackets + (i : Int) * 5000000 + 5000000)) = some r := by
  intro ap hne r
  obtain ⟨p0, ps, rfl⟩ := List.exists_cons_of_ne_nil hne
  simp only [intervalMetricsOf]
  rw [List.mem_flatten]
  constructor
  · rintro ⟨l, hl, hr⟩
    obtain ⟨i, hi, rfl⟩ := List.mem_map.mp hl
    have h := (mem_intervalStep _ _ _ i r).mp hr
    exact ⟨i, List.mem_range.mp hi, h.1, h.2.1, h.2.2⟩
  · rintro ⟨i, hi, h1, h2, h3⟩
    exact ⟨intervalStep (p0 :: ps) (callStartTime (p0 :: ps)) (numWindows (p0 :: ps)) i,
      List.mem_map.mpr ⟨i, List.mem_range.mpr hi, rfl⟩,
      (mem_intervalStep _ _ _ i r).mpr ⟨h1, h2, h3⟩⟩

/-- C6 (witness): a single-packet call spans zero windows, so the output
is empty and no row satisfies the window condition. -/
theorem intervalMetricsOf_policy_witness :
    (([mkPacket 1 0 0 "a" "b"] : List RTPPacket) ≠ []) ∧
    (({ intervalStart := 0, intervalEnd := 5000000, jitter := 0, latency := 0,
        packetLoss := 0, mosScore := 0 } : IntervalMetric) ∈
          intervalMetricsOf [mkPacket 1 0 0 "a" "b"] ↔
        ∃ i : Nat, i < (numWindows [mkPacket 1 0 0 "a" "b"]).toNat ∧
          ¬ ((i = 0 ∧ numWindows [mkPacket 1 0 0 "a" "b"] > 3) ∨
             ((i : Int) = numWindows [mkPacket 1 0 0 "a" "b"] - 1 ∧
               numWindows [mkPacket 1 0 0 "a" "b"] > 3)) ∧
          (windowPackets [mkPacket 1 0 0 "a" "b"]
            (callStartTime [mkPacket 1 0 0 "a" "b"] + (i : Int) * 5000000)).length > 5 ∧
          (calculateMetrics (windowPackets [mkPacket 1 0 0 "a" "b"]
              (callStartTime [mkPacket 1 0 0 "a" "b"] + (i : Int) * 5000000))).map
            (mkIntervalRec (callStartTime [mkPacket 1 0 0 "a" "b"] + (i : Int) * 5000000)
              (callStartTime [mkPacket 1 0 0 "a" "b"] + (i : Int) * 5000000 + 5000000)) =
            some { intervalStart := 0, intervalEnd := 5000000, jitter := 0, latency := 0,
                   packetLoss := 0, mosScore := 0 }) :=
  ⟨by decide,
    intervalMetricsOf_policy [mkPacket 1 0 0 "a" "b"] (by decide) _⟩

theorem foldl_bestStep_none (fp : RTPPacket) :
    ∀ (m : CallMap) (best : Option (String × Int)),
    m.foldl (bestStep fp) best = none ↔
      (best = none ∧ ∀ e ∈ m, qualDiff fp e.2 = none) := by
  intro m
  induction m with
  | nil => intro best; simp
  | cons e0 rest ih =>
    intro best
    simp only [List.foldl_cons]
    rw [ih]
    constructor
    · rintro ⟨hstep, hrest⟩
      unfold bestStep at hstep
      cases hq : qualDiff fp e0.2 with
      | none =>
        rw [hq] at hstep
        exact ⟨hstep, by
          intro e he
          rcases List.mem_cons.mp he with h | h
          · rw [h]; exact hq
          · exact hrest e h⟩
      | some d =>
        rw [hq] at hstep
        cases best with
        | none => simp at hstep
        | some b =>
          by_cases hd : d < b.2 <;> simp [hd] at hstep
    · rintro ⟨hbest, hall⟩
      have hq : qualDiff fp e0.2 = none := hall e0 (by simp)
      refine ⟨?_, fun e he => hall e (by simp [he])⟩
      unfold bestStep
      rw [hq, hbest]

theorem foldl_bestStep_some (fp : RTPPacket) :
    ∀ (m : CallMap) (best : Option (String × Int)) (k : String) (d : Int),
    m.foldl (bestStep fp) best = some (k, d) →
    (best = some (k, d) ∧ ∀ e ∈ m, ∀ d', qualDiff fp e.2 = some d' → d ≤ d') ∨
    (∃ pre e post, m = pre ++ e :: post ∧ e.1 = k ∧ qualDiff fp e.2 = some d ∧
      (∀ b ∈ best, d < b.2) ∧
      (∀ e' ∈ pre, ∀ d', qualDiff fp e'.2 = some d' → d < d') ∧
      (∀ e' ∈ post, ∀ d', qualDiff fp e'.2 = some d' → d ≤ d')) := by
  intro m
  induction m with
  | nil =>
    intro best k d h
    simp only [List.foldl_nil] at h
    exact Or.inl ⟨h, by simp⟩
  | cons e0 rest ih =>
    intro best k d h
    simp only [List.foldl_cons] at h
    rcases ih (bestStep fp best e0) k d h with ⟨hb, hmin⟩ |
      ⟨pre, e, post, hsplit, hk, hq, hbest, hpre, hpost⟩
    · cases hq0 : qualDiff fp e0.2 with
      | none =>
        have hstep : bestStep fp best e0 = best := by unfold bestStep; rw [hq0]
        rw [hstep] at hb
        left
        refine ⟨hb, fun e he d' hd' => ?_⟩
        rcases List.mem_cons.mp he with h' | h'
        · rw [h', hq0] at hd'; cases hd'
        · exact hmin e h' d' hd'
      | some d0 =>
        cases best with
        | none =>
          have hstep : bestStep fp none e0 = some (e0.1, d0) := by
            unfold bestStep; rw [hq0]
          rw [hstep] at hb
          simp only [Option.some.injEq, Prod.mk.injEq] at hb
          obtain ⟨hke, hd⟩ := hb
          right
          refine ⟨[], e0, rest, by simp, hke, by rw [hq0, hd], by simp, by simp,
            fun e' he' d' hd' => hmin e' he' d' hd'⟩
        | some b =>
          by_cases hcmp : d0 < b.2
          · have hstep : bestStep fp (some b) e0 = some (e0.1, d0) := by
              unfold bestStep; rw [hq0]; simp [hcmp]
            rw [hstep] at hb
            simp only [Option.some.injEq, Prod.mk.injEq] at hb
            obtain ⟨hke, hd⟩ := hb
            right
            refine ⟨[], e0, rest, by simp, hke, by rw [hq0, hd], ?_, by simp,
              fun e' he' d' hd' => hmin e' he' d' hd'⟩
            intro b' hb'
            have hb'' : b = b' := by simpa using hb'
            rw [← hb'', ← hd]
            exact hcmp
          · have hstep : bestStep fp (some b) e0 = some b := by
              unfold bestStep; rw [hq0]; simp [hcmp]
            rw [hstep] at hb
            left
            refine ⟨hb, fun e he d' hd' => ?_⟩
            rcases List.mem_cons.mp he with h' | h'
            · rw [h', hq0] at hd'
              injection hd' with hd'
              have hbd : b.2 = d := by
                have hb' := hb
                simp only [Option.some.injEq] at hb'
                rw [hb']
              rw [← hd', ← hbd]
              exact not_lt.mp hcmp
            · exact hmin e h' d' hd'
    · have hfacts : (∀ b ∈ best, d < b.2) ∧
          (∀ d0, qualDiff fp e0.2 = some d0 → d < d0) := by
        cases hq0 : qualDiff fp e0.2 with
        | none =>
          have hstep : bestStep fp best e0 = best := by unfold bestStep; rw [hq0]
          rw [hstep] at hbest
          exact ⟨hbest, fun d0 h0 => by simp at h0⟩
        | some d0 =>
          cases best with
          | none =>
            have hstep : bestStep fp none e0 = some (e0.1, d0) := by
              unfold bestStep; rw [hq0]
            rw [hstep] at hbest
            have hd0 : d < d0 := hbest (e0.1, d0) rfl
            refine ⟨by simp, fun d1 h1 => ?_⟩
            injection h1 with h1
            rw [← h1]
            exact hd0
          | some b =>
            by_cases hcmp : d0 < b.2
            · have hstep : bestStep fp (some b) e0 = some (e0.1, d0) := by
                unfold bestStep; rw [hq0]; simp [hcmp]
              rw [hstep] at hbest
              have hd0 : d < d0 := hbest (e0.1, d0) rfl
              refine ⟨fun b' hb' => ?_, fun d1 h1 => ?_⟩
              · have hb'' : b = b' := by simpa using hb'
                rw [← hb'']
                exact lt_trans hd0 hcmp
              · injection h1 with h1
                rw [← h1]
                exact hd0
            · have hstep : bestStep fp (some b) e0 = some b := by
                unfold bestStep; rw [hq0]; simp [hcmp]
              rw [hstep] at hbest
              have hdb : d < b.2 := hbest b rfl
              refine ⟨fun b' hb' => ?_, fun d1 h1 => ?_⟩
              · have hb'' : b = b' := by simpa using hb'
                rw [← hb'']
                exact hdb
              · injection h1 with h1
                rw [← h1]
                exact lt_of_lt_of_le hdb (not_lt.mp hcmp)
      right
      refine ⟨e0 :: pre, e, post, by rw [hsplit]; rfl, hk, hq, hfacts.1, ?_, hpost⟩
      intro e' he' d' hd'
      rcases List.mem_cons.mp he' with h' | h'
      · rw [h'] at hd'
        exact hfacts.2 d' hd'
      · exact hpre e' h' d' hd'

theorem countP_congr_on {α : Type} (l : List α) (p q : α → Bool)
    (h : ∀ x ∈ l, p x = q x) : l.countP p = l.countP q := by
  induction l with
  | nil => rfl
  | cons x xs ih =>
    rw [List.countP_cons, List.countP_cons, h x (by simp),
      ih (fun a ha => h a (by simp [ha]))]

theorem jsMapSet_fresh {κ β : Type} [BEq κ] [LawfulBEq κ] (m : List (κ × β)) (k : κ)
    (v : β) (h : k ∉ m.map Prod.fst) : jsMapSet m k v = m ++ [(k, v)] := by
  unfold jsMapSet
  rw [if_neg]
  intro hc
  obtain ⟨e, he, hek⟩ := List.any_eq_true.mp hc
  exact h (List.mem_map.mpr ⟨e, he, eq_of_beq hek⟩)

theorem jsMapSet_has_key {κ β : Type} [BEq κ] [LawfulBEq κ] (m : List (κ × β)) (k : κ)
    (v : β) : (jsMapSet m k v).any (fun e => e.1 == k) = true := by
  unfold jsMapSet
  by_cases h : m.any (fun e => e.1 == k)
  · rw [if_pos h]
    obtain ⟨e, he, hek⟩ := List.any_eq_true.mp h
    exact List.any_eq_true.mpr ⟨(k, v), List.mem_map.mpr ⟨e, he, by simp [hek]⟩, by simp⟩
  · rw [if_neg h]
    exact List.any_eq_true.mpr ⟨(k, v), by simp, by simp⟩

theorem countP_key_of_nodup {κ β : Type} [BEq κ] [LawfulBEq κ] :
    ∀ (m : List (κ × β)) (k : κ), (m.map Prod.fst).Nodup → k ∈ m.map Prod.fst →
    m.countP (fun e => e.1 == k) = 1 := by
  intro m
  induction m with
  | nil => intro k _ hk; simp at hk
  | cons e rest ih =>
    intro k hnd hk
    simp only [List.map_cons, List.nodup_cons] at hnd
    rw [List.countP_cons]
    rcases List.mem_cons.mp hk with hke | hkr
    · have hrest : rest.countP (fun x => x.1 == k) = 0 := by
        rw [List.countP_eq_zero]
        intro a ha hc
        have : a.1 = k := by simpa using hc
        exact hnd.1 (List.mem_map.mpr ⟨a, ha, this.trans hke⟩)
      simp [hrest, hke.symm]
    · have hek : ¬ (e.1 == k) = true := by
        intro hc
        have : e.1 = k := by simpa using hc
        rw [this] at hnd
        exact hnd.1 hkr
      rw [ih k hnd.2 hkr]
      simp [hek]

/-- C4 (amended): for each nonempty stream, among the calls whose FIRST
INVITE message satisfies the loop's address condition (`ipMatch`: the
INVITE's source or destination equals the stream's source, and its source
or destination equals the stream's destination — implied by, but weaker
than, pair-equality in either order) with absolute time difference under
10 seconds, the stream is attached to the one with the smallest
difference, first-seen winning ties; when no call qualifies, a new
media-only call keyed `rtp-<ssrc>` holding only that stream is appended
(provided that key is fresh); and under the `Map` invariants (unique
keys, ssrc not yet attached anywhere, fresh synthetic key) the stream
ends up in exactly one call. -/
theorem attachStream_spec :
    ∀ (m : CallMap) (ssrc : Int) (fp : RTPPacket) (rest : List RTPPacket),
    (bestMatch m fp = none →
      (∀ e ∈ m, qualDiff fp e.2 = none) ∧
      (("rtp-" ++ toString ssrc) ∉ m.map Prod.fst →
        attachStream m ssrc (fp :: rest) =
          m ++ [("rtp-" ++ toString ssrc,
            { sipMessages := [], rtpStreams := [(ssrc, fp :: rest)] })])) ∧
    (∀ k d, bestMatch m fp = some (k, d) →
      (∃ pre e post, m = pre ++ e :: post ∧ e.1 = k ∧ qualDiff fp e.2 = some d ∧
        (∀ e' ∈ pre, ∀ d', qualDiff fp e'.2 = some d' → d < d') ∧
        (∀ e' ∈ m, ∀ d', qualDiff fp e'.2 = some d' → d ≤ d')) ∧
      attachStream m ssrc (fp :: rest) =
        m.map (fun e => if e.1 == k then (e.1, addStreamTo e.2 ssrc (fp :: rest)) else e)) ∧
    ((m.map Prod.fst).Nodup →
      (∀ e ∈ m, ∀ s ∈ e.2.rtpStreams, s.1 ≠ ssrc) →
      ("rtp-" ++ toString ssrc) ∉ m.map Prod.fst →
      (attachStream m ssrc (fp :: rest)).countP
        (fun e => e.2.rtpStreams.any (fun s => s.1 == ssrc)) = 1) := by
  intro m ssrc fp rest
  refine ⟨?_, ?_, ?_⟩
  · intro hnone
    have hall := (foldl_bestStep_none fp m none).mp hnone
    refine ⟨hall.2, fun hfresh => ?_⟩
    simp only [attachStream, hnone]
    exact jsMapSet_fresh m _ _ hfresh
  · intro k d hsome
    have h := foldl_bestStep_some fp m none k d hsome
    rcases h with ⟨hc, _⟩ | ⟨pre, e, post, hsplit, hk, hq, _, hpre, hpost⟩
    · simp at hc
    · constructor
      · refine ⟨pre, e, post, hsplit, hk, hq, hpre, ?_⟩
        intro e' he' d' hd'
        rw [hsplit] at he'
        rcases List.mem_append.mp he' with h' | h'
        · exact le_of_lt (hpre e' h' d' hd')
        · rcases List.mem_cons.mp h' with h'' | h''
          · rw [h'', hq] at hd'
            injection hd' with hd'
            exact le_of_eq hd'
          · exact hpost e' h'' d' hd'
      · simp only [attachStream, hsome]
  · intro hnd hfresh hkey
    cases hbm : bestMatch m fp with
    | none =>
      have hatt : attachStream m ssrc (fp :: rest) =
          m ++ [("rtp-" ++ toString ssrc,
            { sipMessages := [], rtpStreams := [(ssrc, fp :: rest)] })] := by
        simp only [attachStream, hbm]
        exact jsMapSet_fresh m _ _ hkey
      rw [hatt, List.countP_append]
      have h0 : m.countP (fun e => e.2.rtpStreams.any (fun s => s.1 == ssrc)) = 0 := by
        rw [List.countP_eq_zero]
        intro e he hc
        obtain ⟨s, hs, hseq⟩ := List.any_eq_true.mp hc
        exact hfresh e he s hs (by simpa using hseq)
      rw [h0]
      simp
    | some b =>
      obtain ⟨k, d⟩ := b
      have h := foldl_bestStep_some fp m none k d hbm
      rcases h with ⟨hc, _⟩ | ⟨pre, e, post, hsplit, hk, _, _, _, _⟩
      · simp at hc
      · have hatt : attachStream m ssrc (fp :: rest) =
            m.map (fun e => if e.1 == k then (e.1, addStreamTo e.2 ssrc (fp :: rest))
              else e) := by
          simp only [attachStream, hbm]
        rw [hatt, List.countP_map]
        have hcong : m.countP ((fun e => e.2.rtpStreams.any (fun s => s.1 == ssrc)) ∘
            (fun e => if e.1 == k then (e.1, addStreamTo e.2 ssrc (fp :: rest)) else e)) =
            m.countP (fun e => e.1 == k) := by
          apply countP_congr_on
          intro x hx
          by_cases hxk : (x.1 == k) = true
          · simp only [Function.comp, hxk, if_true, addStreamTo]
            rw [jsMapSet_has_key]
          · simp only [Function.comp, hxk, if_false]
            rw [List.any_eq_false]
            intro s hs hc
            exact hfresh x hx s hs (by simpa using hc)
        rw [hcong]
        apply countP_key_of_nodup m k hnd
        rw [hsplit]
        exact List.mem_map.mpr ⟨e, by simp, hk⟩

/-- C4 (counterexample): a stream whose first packet has source and
destination both `1.1.1.1` does NOT match the call's INVITE
(`1.1.1.1 -> 2.2.2.2`) as a source/destination pair in either order, yet
the loop's `ipMatch` accepts it and the stream is attached to that call
instead of a synthesized `rtp-7` call. -/
theorem attachStream_not_pair_match :
    specPairMatchEitherOrder
        (⟨0, "1.1.1.1", 5060, "2.2.2.2", 5060, some "INVITE", none⟩ : SIPMessage)
        (mkPacket 0 0 0 "1.1.1.1" "1.1.1.1") = false ∧
    attachStream
        [("call1", ⟨[⟨0, "1.1.1.1", 5060, "2.2.2.2", 5060, some "INVITE", none⟩], []⟩)]
        7 [mkPacket 0 0 0 "1.1.1.1" "1.1.1.1"] =
      [("call1", ⟨[⟨0, "1.1.1.1", 5060, "2.2.2.2", 5060, some "INVITE", none⟩],
        [(7, [mkPacket 0 0 0 "1.1.1.1" "1.1.1.1"])]⟩)] := by
  constructor
  · decide
  · decide

/-- C4 (witness): the exactly-one-call conclusion of the amended theorem
at the same concrete call map and stream. -/
theorem attachStream_spec_witness :
    ((([("call1", ⟨[⟨0, "1.1.1.1", 5060, "2.2.2.2", 5060, some "INVITE", none⟩], []⟩)] :
        CallMap).map Prod.fst).Nodup) ∧
    (attachStream
        [("call1", ⟨[⟨0, "1.1.1.1", 5060, "2.2.2.2", 5060, some "INVITE", none⟩], []⟩)]
        7 [mkPacket 0 0 0 "1.1.1.1" "1.1.1.1"]).countP
      (fun e => e.2.rtpStreams.any (fun s => s.1 == 7)) = 1 :=
  ⟨by decide,
    (attachStream_spec
        [("call1", ⟨[⟨0, "1.1.1.1", 5060, "2.2.2.2", 5060, some "INVITE", none⟩], []⟩)]
        7 (mkPacket 0 0 0 "1.1.1.1" "1.1.1.1") []).2.2
      (by decide) (by decide) (by decide)⟩
